import Mathlib

/-!
Verification of the dataset-preparation pipeline in
`src/scripts/prepare-training-data.py`.

The Python functions `load_jsonl`, `format_for_training`, `balance_dataset`,
`augment_prompts` and `prepare_dataset` are shallowly embedded below.
Python dictionaries with required/optional keys are modelled as structures
with `Option` fields for the keys that the source may find absent
(`metadata` sub-keys); accessing a missing key (Python `KeyError`) and the
other fatal conditions are modelled with `Except Err`.

`random.sample` is modelled as an explicit sampler parameter
(`sampler : List RawRecord → Nat → List RawRecord`); the properties proved
assume only that it returns the requested number of elements drawn without
replacement (a sub-permutation), which is what `random.sample` guarantees.
`random.shuffle` is likewise modelled as an arbitrary permutation-producing
function passed to the orchestrator.
-/

set_option autoImplicit false
set_option maxRecDepth 16384

deriving instance DecidableEq for Except

namespace PrepareTrainingData

/-- Errors raised by the Python source: `json.loads` failure
(`json.JSONDecodeError`), a missing dictionary key (`KeyError`), and the
`ValueError` raised by `random.sample` on an out-of-range sample size. -/
inductive Err where
  | jsonDecodeError
  | keyError (key : String)
  | samplingError
  deriving DecidableEq, Repr

/-- The `metadata` mapping of a record.  The source reads the keys
`category`, `age_range`, `sex`, `has_annotations` and `procedure_type`;
all of them may be absent in a malformed record, hence `Option`.
`procedure_type = some ""` models a present-but-falsy value. -/
structure Metadata where
  category : Option String
  age_range : Option String
  sex : Option String
  has_annotations : Option Bool
  procedure_type : Option String
  deriving DecidableEq, Repr

/-- One raw JSONL record.  The top-level keys `image_path`, `prompt`,
`response`, `metadata` are always present (the data model requires them and
no claim concerns their absence). -/
structure RawRecord where
  image_path : String
  prompt : String
  response : String
  metadata : Metadata
  deriving DecidableEq, Repr

/-- One turn of the `conversations` list produced by `format_for_training`
(`{"from": ..., "value": ...}`). -/
structure ConvTurn where
  from_ : String
  value : String
  deriving DecidableEq, Repr

/-- A formatted training record as built by `format_for_training`. -/
structure FormattedRecord where
  image_path : String
  conversations : List ConvTurn
  metadata : Metadata
  deriving DecidableEq, Repr

/-! ## Python `str.replace` -/

/-- Python `old in s` on character lists: does `p` occur as a contiguous
subsequence of `s`?  (Used only with non-empty `p`.) -/
def containsSeq (p : List Char) : List Char → Bool
  | [] => p.isPrefixOf []
  | c :: rest => p.isPrefixOf (c :: rest) || containsSeq p rest

/-- Python `s.replace(old, new)` on character lists: replace non-overlapping
occurrences of `old` left to right.  Fuel-based structural recursion; with
`fuel ≥ s.length` the fuel never runs out.  Faithful to Python for
non-empty `old`, the only way the source uses it. -/
def replaceAllAux (old new : List Char) : Nat → List Char → List Char
  | _, [] => []
  | 0, s => s
  | fuel + 1, c :: rest =>
    if old.isPrefixOf (c :: rest) then
      new ++ replaceAllAux old new fuel (rest.drop (old.length - 1))
    else
      c :: replaceAllAux old new fuel rest

/-- Python `s.replace(old, new)` on strings. -/
def strReplace (s old new : String) : String :=
  ⟨replaceAllAux old.data new.data s.data.length s.data⟩

/-! ## The embedded source functions -/

/-- One line of the input file, abstracted by what `json.loads(line.strip())`
does with it: it either parses to a record, strips to the empty string
(`json.loads ""` raises `JSONDecodeError`), or is otherwise invalid JSON. -/
inductive Line where
  | record (r : RawRecord)
  | empty
  | invalid
  deriving DecidableEq, Repr

/-- `json.loads(line.strip())` for one line. -/
def parseLine : Line → Except Err RawRecord
  | .record r => .ok r
  | .empty => .error .jsonDecodeError
  | .invalid => .error .jsonDecodeError

/-- `load_jsonl` (source lines 14–20): appends the parse of every line, in
order; the first bad line raises and aborts the whole load. -/
def load_jsonl : List Line → Except Err (List RawRecord)
  | [] => .ok []
  | l :: rest =>
    match parseLine l with
    | .error e => .error e
    | .ok r =>
      match load_jsonl rest with
      | .error e => .error e
      | .ok rs => .ok (r :: rs)

/-- `format_for_training` (source lines 22–39). -/
def format_for_training (entry : RawRecord) : FormattedRecord :=
  { image_path := entry.image_path
    conversations := [⟨"human", entry.prompt⟩, ⟨"gpt", entry.response⟩]
    metadata := entry.metadata }

/-- `category_groups[category].append(entry)` on the insertion-ordered
association list that models the `defaultdict(list)`. -/
def addToGroups : List (String × List RawRecord) → String → RawRecord →
    List (String × List RawRecord)
  | [], c, r => [(c, [r])]
  | (c', l) :: rest, c, r =>
    if c' = c then (c', l ++ [r]) :: rest else (c', l) :: addToGroups rest c r

/-- The grouping loop of `balance_dataset` (source lines 43–48); reading
`entry["metadata"]["category"]` raises `KeyError` when the key is absent. -/
def groupByCategory : List (String × List RawRecord) → List RawRecord →
    Except Err (List (String × List RawRecord))
  | gs, [] => .ok gs
  | gs, r :: rest =>
    match r.metadata.category with
    | none => .error (.keyError "category")
    | some c => groupByCategory (addToGroups gs c r) rest

/-- `random.sample(entries, k)`: raises `ValueError` unless
`0 ≤ k ≤ len(entries)`; otherwise draws `k` elements without replacement,
modelled by the explicit `sampler`. -/
def randomSample (sampler : List RawRecord → Nat → List RawRecord)
    (entries : List RawRecord) (k : Int) : Except Err (List RawRecord) :=
  if 0 ≤ k ∧ k ≤ (entries.length : Int) then .ok (sampler entries k.toNat)
  else .error .samplingError

/-- The per-category loop of `balance_dataset` (source lines 52–58). -/
def balanceGroups (sampler : List RawRecord → Nat → List RawRecord) (k : Int) :
    List (String × List RawRecord) → Except Err (List (List RawRecord))
  | [] => .ok []
  | (_, entries) :: rest =>
    match (if (entries.length : Int) > k then randomSample sampler entries k
           else .ok entries) with
    | .error e => .error e
    | .ok kept =>
      match balanceGroups sampler k rest with
      | .error e => .error e
      | .ok rest' => .ok (kept :: rest')

/-- `balance_dataset` (source lines 41–61).  `max_per_category : Option Int`
models the Python default `None`; the test `if max_per_category:` is Python
truthiness, so both `None` and `0` take the no-balancing path and return the
input unchanged. -/
def balance_dataset (sampler : List RawRecord → Nat → List RawRecord)
    (data : List RawRecord) (max_per_category : Option Int) :
    Except Err (List RawRecord) :=
  match groupByCategory [] data with
  | .error e => .error e
  | .ok category_groups =>
    match max_per_category with
    | some k =>
      if k ≠ 0 then
        match balanceGroups sampler k category_groups with
        | .error e => .error e
        | .ok balanced => .ok balanced.flatten
      else .ok data
    | none => .ok data

/-- First alternative prompt of `augment_prompts` (source line 70). -/
def alt1 : String :=
  "Analyze this endoscopic image and describe any pathological findings."

/-- Second alternative prompt (source line 71). -/
def alt2 : String :=
  "What abnormalities can you identify in this endoscopy image? Provide clinical assessment."

/-- Third alternative prompt (source line 72, defined but unused:
`alternative_prompts[:2]`). -/
def alt3 : String :=
  "Examine this endoscopic image for lesions. Include classification and recommendations."

/-- Fourth alternative prompt (source line 73, defined but unused). -/
def alt4 : String :=
  "Perform a detailed analysis of this endoscopy image, noting any concerning features."

/-- The `alternative_prompts` list (source lines 69–74). -/
def alternative_prompts : List String := [alt1, alt2, alt3, alt4]

/-- The baseline prompt targeted by the `.replace` call (source line 81). -/
def base_prompt : String :=
  "Analyze this endoscopic image and provide a detailed clinical assessment."

/-- `augment_prompts` (source lines 63–86).  The eligibility test
`entry["metadata"]["category"] != "normal" and entry["metadata"]["has_annotations"]`
short-circuits: `has_annotations` is only read when the category differs
from "normal".  Eligible entries get the original plus one copy per prompt
in `alternative_prompts[:2]`, each with `prompt.replace(base, alt)`. -/
def augment_prompts (entry : RawRecord) : Except Err (List RawRecord) :=
  match entry.metadata.category with
  | none => .error (.keyError "category")
  | some c =>
    if c ≠ "normal" then
      match entry.metadata.has_annotations with
      | none => .error (.keyError "has_annotations")
      | some b =>
        if b then
          .ok (entry :: (alternative_prompts.take 2).map
            (fun alt => { entry with prompt := strReplace entry.prompt base_prompt alt }))
        else .ok [entry]
    else .ok [entry]

/-- The augmentation loop of `prepare_dataset` (source lines 112–115):
`augmented_data.extend(augment_prompts(entry))` for each entry. -/
def augmentAll : List RawRecord → Except Err (List RawRecord)
  | [] => .ok []
  | e :: rest =>
    match augment_prompts e with
    | .error err => .error err
    | .ok vs =>
      match augmentAll rest with
      | .error err => .error err
      | .ok rest' => .ok (vs ++ rest')

/-! ## Statistics (source lines 134–151) -/

/-- `stats["total_entries"]` (source line 135). -/
def total_entries (l : List FormattedRecord) : Nat := l.length

/-- `stats["unique_images"]` (source line 136):
`len(set(entry["image_path"] for entry in formatted_data))`. -/
def unique_images (l : List FormattedRecord) : Nat :=
  ((l.map (fun e => e.image_path)).dedup).length

/-- The mutable counter dictionaries of the statistics loop. -/
@[ext]
structure Counters where
  cat : String → Nat
  age : String → Nat
  sex : String → Nat
  proc : String → Nat

/-- `d[key] += 1` on a counter function. -/
def bump (f : String → Nat) (k : String) : String → Nat :=
  fun x => if x = k then f x + 1 else f x

/-- One iteration of the statistics loop (source lines 145–151): reads
`meta["category"]`, `meta["age_range"]`, `meta["sex"]` (each a `KeyError`
when absent) and counts `meta.get("procedure_type")` only when truthy. -/
def statsStep (acc : Counters) (e : FormattedRecord) : Except Err Counters :=
  match e.metadata.category with
  | none => .error (.keyError "category")
  | some c =>
    match e.metadata.age_range with
    | none => .error (.keyError "age_range")
    | some a =>
      match e.metadata.sex with
      | none => .error (.keyError "sex")
      | some s =>
        .ok { cat := bump acc.cat c
              age := bump acc.age a
              sex := bump acc.sex s
              proc :=
                match e.metadata.procedure_type with
                | some p => if p = "" then acc.proc else bump acc.proc p
                | none => acc.proc }

/-- The statistics loop over all formatted entries. -/
def foldStats (acc : Counters) : List FormattedRecord → Except Err Counters
  | [] => .ok acc
  | e :: rest =>
    match statsStep acc e with
    | .error err => .error err
    | .ok acc' => foldStats acc' rest

/-- The `stats` dictionary as persisted (source lines 134–156). -/
structure StatsReport where
  total_entries : Nat
  unique_images : Nat
  category_distribution : String → Nat
  age_distribution : String → Nat
  sex_distribution : String → Nat
  procedure_types : String → Nat

/-- Building the statistics report over the (post-shuffle) formatted data. -/
def computeStats (l : List FormattedRecord) : Except Err StatsReport :=
  match foldStats ⟨fun _ => 0, fun _ => 0, fun _ => 0, fun _ => 0⟩ l with
  | .error e => .error e
  | .ok cnt =>
    .ok { total_entries := total_entries l
          unique_images := unique_images l
          category_distribution := cnt.cat
          age_distribution := cnt.age
          sex_distribution := cnt.sex
          procedure_types := cnt.proc }

/-! ##`prepare_dataset` (source lines 88–163) -/

/-- Observable outcome of one `prepare_dataset` run: the contents of the
formatted-records file if it was written, the statistics file if it was
written, and the error that aborted the run, if any.  The source writes the
formatted file (line 127) before the statistics loop runs (line 145), so an
error there leaves `formatted_file` written. -/
structure PrepareOutcome where
  formatted_file : Option (List FormattedRecord)
  stats_file : Option StatsReport
  error : Option Err

/-- `prepare_dataset`: load → (balance?) → (augment?) → format → shuffle →
write formatted file → statistics → write statistics file. -/
def prepare_dataset (sampler : List RawRecord → Nat → List RawRecord)
    (shuffle : List FormattedRecord → List FormattedRecord)
    (lines : List Line) (augment balance : Bool)
    (max_per_category : Option Int) : PrepareOutcome :=
  match load_jsonl lines with
  | .error e => ⟨none, none, some e⟩
  | .ok data =>
    match (if balance then balance_dataset sampler data max_per_category
           else .ok data) with
    | .error e => ⟨none, none, some e⟩
    | .ok data1 =>
      match (if augment then augmentAll data1 else .ok data1) with
      | .error e => ⟨none, none, some e⟩
      | .ok data2 =>
        let formatted_data := data2.map format_for_training
        let shuffled := shuffle formatted_data
        match computeStats shuffled with
        | .error e => ⟨some shuffled, none, some e⟩
        | .ok stats => ⟨some shuffled, some stats, none⟩

/-! ## Helper definitions used by the statements and proofs -/

/-- Is an `Except` value a success? -/
def isOkE {α : Type} : Except Err α → Bool
  | .ok _ => true
  | .error _ => false

/-- The three metadata keys the statistics loop reads unconditionally are
present. -/
def keysOK (e : FormattedRecord) : Bool :=
  e.metadata.category.isSome && e.metadata.age_range.isSome && e.metadata.sex.isSome

/-- Boolean test "this record's category is `c`". -/
def catOfB (c : String) (e : RawRecord) : Bool :=
  decide (e.metadata.category = some c)

/-- Replace the `procedure_type` metadata entry of a formatted record. -/
def setProcedureType (e : FormattedRecord) (v : Option String) : FormattedRecord :=
  { e with metadata := { e.metadata with procedure_type := v } }

/-- The keys of the grouping association list, in insertion order. -/
def keysOf (gs : List (String × List RawRecord)) : List String :=
  gs.map Prod.fst

/-- All records stored under key `c` in the grouping association list. -/
def entriesFor : List (String × List RawRecord) → String → List RawRecord
  | [], _ => []
  | (c', l) :: rest, c =>
    if c' = c then l ++ entriesFor rest c else entriesFor rest c

/-- A deterministic instance of the sampler abstraction (take the first `n`):
it returns `n` elements drawn without replacement, as `random.sample` does. -/
def sTake (l : List RawRecord) (n : Nat) : List RawRecord := l.take n

/-- Metadata with all required keys present. -/
def md_full (c : String) (ann : Bool) : Metadata :=
  ⟨some c, some "40-50", some "M", some ann, none⟩

/-- A concrete eligible "polyp" record whose prompt is the canonical baseline. -/
def rec_polyp1 : RawRecord := ⟨"img/p1.jpg", base_prompt, "Polyp seen.", md_full "polyp" true⟩

/-- A second concrete eligible "polyp" record with the baseline prompt. -/
def rec_polyp2 : RawRecord := ⟨"img/p2.jpg", base_prompt, "Polyp seen.", md_full "polyp" true⟩

/-- A concrete "normal" record (ineligible for augmentation). -/
def rec_normal : RawRecord := ⟨"img/n1.jpg", "Describe.", "Normal exam.", md_full "normal" true⟩

/-- A concrete non-annotated "ulcer" record (ineligible for augmentation). -/
def rec_ulcer : RawRecord := ⟨"img/u1.jpg", "Describe.", "Ulcer.", md_full "ulcer" false⟩

/-- An eligible record whose prompt properly contains the baseline without
being equal to it. -/
def rec_contains : RawRecord :=
  ⟨"img/c1.jpg", String.append base_prompt " Note.", "Polyp.", md_full "polyp" true⟩

/-- A record whose metadata lacks the required `age_range` key. -/
def rec_noage : RawRecord :=
  ⟨"img/a1.jpg", "Describe.", "Polyp.", ⟨some "polyp", none, some "M", some true, none⟩⟩

/-- Input for the end-to-end augmentation scenario: two eligible "polyp"
records with the baseline prompt, one "normal", one non-annotated "ulcer". -/
def lines4 : List Line :=
  [Line.record rec_polyp1, Line.record rec_polyp2, Line.record rec_normal, Line.record rec_ulcer]

/-- The raw records after the augmentation stage of the scenario. -/
def data8 : List RawRecord :=
  [rec_polyp1, { rec_polyp1 with prompt := alt1 }, { rec_polyp1 with prompt := alt2 },
   rec_polyp2, { rec_polyp2 with prompt := alt1 }, { rec_polyp2 with prompt := alt2 },
   rec_normal, rec_ulcer]

/-- The formatted records of the scenario, before shuffling. -/
def formatted8 : List FormattedRecord := data8.map format_for_training

/-- Input dataset for the balancing witness: two "polyp", one "normal". -/
def data_bal : List RawRecord := [rec_polyp1, rec_polyp2, rec_normal]

/-- Two concrete formatted records. -/
def frec1 : FormattedRecord := format_for_training rec_polyp1

/-- Two concrete formatted records. -/
def frec2 : FormattedRecord := format_for_training rec_normal

/-! ## Lemmas about `str.replace` -/

theorem replaceAllAux_of_not_contains (old new : List Char) (fuel : Nat) (s : List Char)
    (h : containsSeq old s = false) : replaceAllAux old new fuel s = s := by
  induction fuel generalizing s with
  | zero => cases s <;> rfl
  | succ fuel ih =>
    cases s with
    | nil => rfl
    | cons ch rest =>
      rw [containsSeq, Bool.or_eq_false_iff] at h
      rw [replaceAllAux, if_neg (by simp [h.1]), ih rest h.2]

/-- If the pattern does not occur in `s`, Python `s.replace(old, new)` is a
no-op. -/
theorem strReplace_of_not_contains (s old new : String)
    (h : containsSeq old.data s.data = false) : strReplace s old new = s := by
  unfold strReplace
  rw [replaceAllAux_of_not_contains old.data new.data s.data.length s.data h]

/-! ## C1: variant counts of `augment_prompts` -/

/-- C1: for every raw record whose metadata carries `category = c` and
`has_annotations = b`, `augment_prompts` produces exactly 3 variants — the
original first, then the two copies with `prompt.replace(base, alt_i)`
applied — when `c ≠ "normal"` and `b = true`, and exactly one variant equal
to the input record otherwise. -/
theorem augment_prompts_variant_count (e : RawRecord) (c : String) (b : Bool)
    (hc : e.metadata.category = some c) (hb : e.metadata.has_annotations = some b) :
    (c ≠ "normal" → b = true →
      augment_prompts e = .ok [e,
        { e with prompt := strReplace e.prompt base_prompt alt1 },
        { e with prompt := strReplace e.prompt base_prompt alt2 }]) ∧
    ((c = "normal" ∨ b = false) → augment_prompts e = .ok [e]) := by
  constructor
  · intro hcn hbt
    subst hbt
    simp [augment_prompts, hc, hb, hcn, alternative_prompts]
  · rintro (hcn | hbf)
    · subst hcn
      simp [augment_prompts, hc]
    · subst hbf
      by_cases hcn : c = "normal"
      · subst hcn
        simp [augment_prompts, hc]
      · simp [augment_prompts, hc, hb, hcn]

/-- Witness for C1 at concrete records: an eligible "polyp" record yields
three variants, a "normal" record yields one. -/
theorem augment_prompts_variant_count_witness :
    rec_polyp1.metadata.category = some "polyp" ∧
    rec_polyp1.metadata.has_annotations = some true ∧
    ("polyp" : String) ≠ "normal" ∧
    augment_prompts rec_polyp1 = .ok [rec_polyp1,
      { rec_polyp1 with prompt := strReplace rec_polyp1.prompt base_prompt alt1 },
      { rec_polyp1 with prompt := strReplace rec_polyp1.prompt base_prompt alt2 }] ∧
    augment_prompts rec_normal = .ok [rec_normal] :=
  ⟨rfl, rfl, by decide,
   (augment_prompts_variant_count rec_polyp1 "polyp" true rfl rfl).1 (by decide) rfl,
   (augment_prompts_variant_count rec_normal "normal" true rfl rfl).2 (Or.inl rfl)⟩

/-! ## C4: the substitution is a substring replacement, not an exact match -/

/-- C4 counterexample: an eligible record whose prompt properly contains the
baseline (so is not exactly the baseline) still has its variants' prompts
modified, contradicting "a prompt that is not exactly the baseline is never
modified". -/
theorem augment_exact_match_cex :
    rec_contains.prompt ≠ base_prompt ∧
    augment_prompts rec_contains = .ok [rec_contains,
      { rec_contains with prompt := String.append alt1 " Note." },
      { rec_contains with prompt := String.append alt2 " Note." }] ∧
    String.append alt1 " Note." ≠ rec_contains.prompt := by
  exact ⟨by decide, by decide, by decide⟩

/-- C4 amended: for every eligible record, each variant's prompt is the
original with every occurrence of the baseline substring replaced by the
alternative (Python `str.replace`).  In particular a prompt exactly equal to
the baseline becomes exactly the alternative, and a prompt that does not
contain the baseline as a substring is unchanged; but a prompt merely
containing the baseline is still modified (see the counterexample). -/
theorem augment_prompts_replace_semantics (e : RawRecord) (c : String)
    (hc : e.metadata.category = some c) (hcn : c ≠ "normal")
    (hb : e.metadata.has_annotations = some true) :
    augment_prompts e = .ok [e,
      { e with prompt := strReplace e.prompt base_prompt alt1 },
      { e with prompt := strReplace e.prompt base_prompt alt2 }] ∧
    (e.prompt = base_prompt →
      strReplace e.prompt base_prompt alt1 = alt1 ∧
      strReplace e.prompt base_prompt alt2 = alt2) ∧
    (containsSeq base_prompt.data e.prompt.data = false →
      strReplace e.prompt base_prompt alt1 = e.prompt ∧
      strReplace e.prompt base_prompt alt2 = e.prompt) := by
  refine ⟨(augment_prompts_variant_count e c true hc hb).1 hcn rfl, ?_, ?_⟩
  · intro hp
    rw [hp]
    exact ⟨by decide, by decide⟩
  · intro hnc
    exact ⟨strReplace_of_not_contains _ _ _ hnc, strReplace_of_not_contains _ _ _ hnc⟩

/-- Witness for C4 (amended) at a concrete eligible record whose prompt is
exactly the baseline: both variants carry the alternative prompts. -/
theorem augment_prompts_replace_semantics_witness :
    rec_polyp1.metadata.category = some "polyp" ∧
    ("polyp" : String) ≠ "normal" ∧
    rec_polyp1.metadata.has_annotations = some true ∧
    rec_polyp1.prompt = base_prompt ∧
    strReplace rec_polyp1.prompt base_prompt alt1 = alt1 ∧
    strReplace rec_polyp1.prompt base_prompt alt2 = alt2 :=
  ⟨rfl, by decide, rfl, rfl,
   ((augment_prompts_replace_semantics rec_polyp1 "polyp" rfl (by decide) rfl).2.1 rfl).1,
   ((augment_prompts_replace_semantics rec_polyp1 "polyp" rfl (by decide) rfl).2.1 rfl).2⟩

/-! ## C7: `load_jsonl` -/

/-- C7 counterexample: on a source with one valid record line followed by an
empty line, the loader does not return the single record (the claim's "empty
lines produce no record"); `json.loads("")` raises and the whole load fails. -/
theorem load_jsonl_empty_line_cex :
    load_jsonl [Line.record rec_polyp1, Line.empty] = .error Err.jsonDecodeError ∧
    load_jsonl [Line.record rec_polyp1, Line.empty] ≠ .ok [rec_polyp1] := by
  exact ⟨by decide, by decide⟩

/-- C7 amended: the loader produces one raw record per line, in source
order, succeeding exactly when every line parses as a record; any other
line — an empty line included, since the empty string is not valid JSON —
makes the load fail with a fatal error rather than being skipped. -/
theorem load_jsonl_ok_iff (lines : List Line) (rs : List RawRecord) :
    load_jsonl lines = .ok rs ↔ lines = rs.map Line.record := by
  induction lines generalizing rs with
  | nil => cases rs <;> simp [load_jsonl]
  | cons l rest ih =>
    cases l with
    | record r =>
      cases rs with
      | nil =>
        cases hrest : load_jsonl rest <;> simp [load_jsonl, parseLine, hrest]
      | cons r' rs' =>
        cases hrest : load_jsonl rest with
        | error e =>
          have h2 : rest ≠ rs'.map Line.record := by
            intro hm
            rw [(ih rs').mpr hm] at hrest
            cases hrest
          simp [load_jsonl, parseLine, hrest, h2]
        | ok rs0 =>
          have h2 : rest = rs'.map Line.record ↔ rs0 = rs' := by
            rw [← ih rs', hrest]
            simp
          simp [load_jsonl, parseLine, hrest, h2]
    | empty =>
      cases rs <;> simp [load_jsonl, parseLine]
    | invalid =>
      cases rs <;> simp [load_jsonl, parseLine]

/-! ## Lemmas about the statistics loop -/

theorem bump_apply (f : String → Nat) (k x : String) :
    bump f k x = f x + if x = k then 1 else 0 := by
  unfold bump
  by_cases hx : x = k <;> simp [hx]

theorem statsStep_ok_of_keys (acc : Counters) (e : FormattedRecord) (c a s : String)
    (hc : e.metadata.category = some c) (ha : e.metadata.age_range = some a)
    (hs : e.metadata.sex = some s) :
    statsStep acc e = .ok
      { cat := bump acc.cat c
        age := bump acc.age a
        sex := bump acc.sex s
        proc :=
          match e.metadata.procedure_type with
          | some p => if p = "" then acc.proc else bump acc.proc p
          | none => acc.proc } := by
  unfold statsStep
  rw [hc, ha, hs]

theorem statsStep_error_of_bad_keys (acc : Counters) (e : FormattedRecord)
    (h : keysOK e = false) : ∃ err, statsStep acc e = .error err := by
  unfold keysOK at h
  unfold statsStep
  cases hc : e.metadata.category with
  | none => exact ⟨_, rfl⟩
  | some c =>
    cases ha : e.metadata.age_range with
    | none => exact ⟨_, rfl⟩
    | some a =>
      cases hsx : e.metadata.sex with
      | none => exact ⟨_, rfl⟩
      | some s => simp [hc, ha, hsx] at h

/-- The statistics loop succeeds iff every entry carries the three
unconditionally-read metadata keys. -/
theorem foldStats_ok_iff (l : List FormattedRecord) :
    ∀ acc : Counters, (∃ cnt, foldStats acc l = .ok cnt) ↔ (∀ e ∈ l, keysOK e = true) := by
  induction l with
  | nil =>
    intro acc
    simp [foldStats]
  | cons e rest ih =>
    intro acc
    constructor
    · rintro ⟨cnt, h⟩
      rw [foldStats] at h
      cases hs : statsStep acc e with
      | error err => rw [hs] at h; cases h
      | ok acc1 =>
        rw [hs] at h
        intro y hy
        rcases List.mem_cons.mp hy with rfl | hy'
        · by_contra hbad
          have hk : keysOK y = false := by
            cases hkk : keysOK y
            · rfl
            · exact absurd hkk hbad
          obtain ⟨err, herr⟩ := statsStep_error_of_bad_keys acc y hk
          rw [herr] at hs
          cases hs
        · exact ((ih acc1).mp ⟨cnt, h⟩) y hy'
    · intro hall
      have hk : keysOK e = true := hall e (List.mem_cons_self e rest)
      unfold keysOK at hk
      simp only [Bool.and_eq_true, Option.isSome_iff_exists] at hk
      obtain ⟨⟨⟨c, hc⟩, a, ha⟩, s, hs⟩ := hk
      obtain ⟨cnt, hcnt⟩ := (ih _).mpr (fun x hx => hall x (List.mem_cons_of_mem e hx))
      refine ⟨cnt, ?_⟩
      rw [foldStats, statsStep_ok_of_keys acc e c a s hc ha hs]
      exact hcnt

/-- Count characterization of the statistics loop: each bucket of each
distribution counts the matching entries. -/
theorem foldStats_counts (l : List FormattedRecord) :
    ∀ acc cnt : Counters, foldStats acc l = .ok cnt →
      (∀ x, cnt.cat x = acc.cat x +
        l.countP (fun e => decide (e.metadata.category = some x))) ∧
      (∀ x, cnt.age x = acc.age x +
        l.countP (fun e => decide (e.metadata.age_range = some x))) ∧
      (∀ x, cnt.sex x = acc.sex x +
        l.countP (fun e => decide (e.metadata.sex = some x))) ∧
      (∀ x, cnt.proc x = acc.proc x +
        l.countP (fun e => decide (e.metadata.procedure_type = some x ∧ ¬ x = ""))) := by
  induction l with
  | nil =>
    intro acc cnt h
    rw [foldStats] at h
    cases h
    simp
  | cons e rest ih =>
    intro acc cnt h
    rw [foldStats] at h
    cases hstep : statsStep acc e with
    | error err => rw [hstep] at h; cases h
    | ok acc1 =>
      rw [hstep] at h
      obtain ⟨h1, h2, h3, h4⟩ := ih acc1 cnt h
      cases hcat : e.metadata.category with
      | none =>
        unfold statsStep at hstep
        rw [hcat] at hstep
        cases hstep
      | some c =>
        cases hage : e.metadata.age_range with
        | none =>
          unfold statsStep at hstep
          rw [hcat, hage] at hstep
          cases hstep
        | some a =>
          cases hsex : e.metadata.sex with
          | none =>
            unfold statsStep at hstep
            rw [hcat, hage, hsex] at hstep
            cases hstep
          | some s =>
            rw [statsStep_ok_of_keys acc e c a s hcat hage hsex] at hstep
            cases hstep
            refine ⟨fun x => ?_, fun x => ?_, fun x => ?_, fun x => ?_⟩
            · rw [h1 x, List.countP_cons]
              simp only [hcat, bump_apply, decide_eq_true_eq, Option.some.injEq]
              by_cases hx : x = c
              · subst hx
                simp <;> omega
              · have hcx : ¬(c = x) := fun hh => hx hh.symm
                simp [hx, hcx] <;> omega
            · rw [h2 x, List.countP_cons]
              simp only [hage, bump_apply, decide_eq_true_eq, Option.some.injEq]
              by_cases hx : x = a
              · subst hx
                simp <;> omega
              · have hax : ¬(a = x) := fun hh => hx hh.symm
                simp [hx, hax] <;> omega
            · rw [h3 x, List.countP_cons]
              simp only [hsex, bump_apply, decide_eq_true_eq, Option.some.injEq]
              by_cases hx : x = s
              · subst hx
                simp <;> omega
              · have hsx2 : ¬(s = x) := fun hh => hx hh.symm
                simp [hx, hsx2] <;> omega
            · rw [h4 x, List.countP_cons]
              cases hpt : e.metadata.procedure_type with
              | none =>
                simp [hpt] <;> omega
              | some p =>
                by_cases hpe : p = ""
                · subst hpe
                  by_cases hx : x = ""
                  · subst hx
                    simp [hpt] <;> omega
                  · have hx2 : ¬(("" : String) = x) := fun hh => hx hh.symm
                    simp [hpt, hx, hx2] <;> omega
                · by_cases hx : x = p
                  · subst hx
                    simp [hpt, bump_apply, hpe] <;> omega
                  · have hpx : ¬(p = x) := fun hh => hx hh.symm
                    simp [hpt, bump_apply, hpe, hx, hpx] <;> omega

/-- The statistics report is invariant under permutation of its input. -/
theorem computeStats_perm (l sh : List FormattedRecord) (hperm : l.Perm sh)
    (r : StatsReport) (h : computeStats l = .ok r) : computeStats sh = .ok r := by
  unfold computeStats at h ⊢
  cases hf : foldStats ⟨fun _ => 0, fun _ => 0, fun _ => 0, fun _ => 0⟩ l with
  | error e => rw [hf] at h; cases h
  | ok cnt =>
    rw [hf] at h
    have hall : ∀ e ∈ l, keysOK e = true := (foldStats_ok_iff l _).mp ⟨cnt, hf⟩
    have hall2 : ∀ e ∈ sh, keysOK e = true := fun e he => hall e (hperm.mem_iff.mpr he)
    obtain ⟨cnt2, hf2⟩ := (foldStats_ok_iff sh _).mpr hall2
    rw [hf2]
    obtain ⟨c1, a1, s1, p1⟩ := foldStats_counts l _ cnt hf
    obtain ⟨c2, a2, s2, p2⟩ := foldStats_counts sh _ cnt2 hf2
    have hcnt : cnt2 = cnt := by
      ext x
      · rw [c2 x, c1 x, List.Perm.countP_eq _ hperm]
      · rw [a2 x, a1 x, List.Perm.countP_eq _ hperm]
      · rw [s2 x, s1 x, List.Perm.countP_eq _ hperm]
      · rw [p2 x, p1 x, List.Perm.countP_eq _ hperm]
    have htot : total_entries sh = total_entries l := hperm.length_eq.symm
    have huni : unique_images sh = unique_images l := by
      unfold unique_images
      exact ((hperm.map (fun e => e.image_path)).dedup).length_eq.symm
    rw [hcnt, htot, huni]
    exact h

/-! ## C10: falsy `procedure_type` values are excluded like absent keys -/

theorem statsStep_setPT (e : FormattedRecord) (acc : Counters) :
    statsStep acc (setProcedureType e (some "")) = statsStep acc (setProcedureType e none) := by
  obtain ⟨ip, cv, md⟩ := e
  obtain ⟨mc, ma, ms, mh, mp⟩ := md
  unfold setProcedureType statsStep
  cases mc <;> cases ma <;> cases ms <;> simp

theorem foldStats_append_congr (e1 e2 : FormattedRecord)
    (hstep : ∀ acc, statsStep acc e1 = statsStep acc e2) (l2 : List FormattedRecord) :
    ∀ (l1 : List FormattedRecord) (acc : Counters),
      foldStats acc (l1 ++ e1 :: l2) = foldStats acc (l1 ++ e2 :: l2) := by
  intro l1
  induction l1 with
  | nil =>
    intro acc
    simp only [List.nil_append, foldStats]
    rw [hstep acc]
  | cons e rest ih =>
    intro acc
    simp only [List.cons_append, foldStats]
    cases h : statsStep acc e with
    | error err => rfl
    | ok acc1 => exact ih acc1

/-- C10: a formatted record whose metadata carries `procedure_type` with the
falsy value `""` is excluded from the procedure-type distribution exactly
as if the key were absent: the whole statistics report is unchanged when
`some ""` is swapped for `none`. -/
theorem stats_falsy_procedure_type (l1 l2 : List FormattedRecord) (e : FormattedRecord) :
    computeStats (l1 ++ setProcedureType e (some "") :: l2) =
      computeStats (l1 ++ setProcedureType e none :: l2) := by
  unfold computeStats
  rw [foldStats_append_congr _ _ (statsStep_setPT e) l2 l1]
  have hlen : total_entries (l1 ++ setProcedureType e (some "") :: l2) =
      total_entries (l1 ++ setProcedureType e none :: l2) := by
    simp [total_entries]
  have himg : unique_images (l1 ++ setProcedureType e (some "") :: l2) =
      unique_images (l1 ++ setProcedureType e none :: l2) := by
    simp [unique_images, setProcedureType]
  rw [hlen, himg]

/-! ## C8: shuffling is a permutation and does not change the statistics -/

/-- C8: when the shuffle step produces a permutation of the formatted
records (which `random.shuffle` does), the multiset of records is unchanged,
and the statistics report computed over the shuffled sequence equals the one
computed over the unshuffled sequence. -/
theorem shuffle_preserves_stats (l sh : List FormattedRecord)
    (hperm : l.Perm sh) (hok : isOkE (computeStats l) = true) :
    (l : Multiset FormattedRecord) = (sh : Multiset FormattedRecord) ∧
    computeStats sh = computeStats l := by
  obtain ⟨r, hr⟩ : ∃ r, computeStats l = .ok r := by
    cases h : computeStats l with
    | error e =>
      rw [h] at hok
      simp [isOkE] at hok
    | ok r => exact ⟨r, rfl⟩
  refine ⟨Multiset.coe_eq_coe.mpr hperm, ?_⟩
  rw [hr]
  exact computeStats_perm l sh hperm r hr

/-- Witness for C8 at a concrete two-element list and its transposition. -/
theorem shuffle_preserves_stats_witness :
    ([frec1, frec2].Perm [frec2, frec1]) ∧
    isOkE (computeStats [frec1, frec2]) = true ∧
    computeStats [frec2, frec1] = computeStats [frec1, frec2] :=
  ⟨by decide, by decide,
   (shuffle_preserves_stats [frec1, frec2] [frec2, frec1] (by decide) (by decide)).2⟩

/-! ## C9: `unique_images` is a set cardinality bounded by `total_entries` -/

/-- C9: `unique_images` — the value `computeStats` stores in the report —
is the cardinality of the set of distinct `image_path` values, is at most
`total_entries`, and equals `total_entries` exactly when no two formatted
records share an `image_path`. -/
theorem stats_unique_images_spec (l : List FormattedRecord) :
    unique_images l = ((l.map (fun e => e.image_path)).toFinset).card ∧
    unique_images l ≤ total_entries l ∧
    (unique_images l = total_entries l ↔ (l.map (fun e => e.image_path)).Nodup) := by
  refine ⟨(List.card_toFinset _).symm, ?_, ?_⟩
  · have := (List.dedup_sublist (l.map (fun e => e.image_path))).length_le
    simpa [unique_images, total_entries] using this
  · constructor
    · intro h
      have hlen : (l.map (fun e => e.image_path)).dedup.length =
          (l.map (fun e => e.image_path)).length := by
        simpa [unique_images, total_entries] using h
      have heq : (l.map (fun e => e.image_path)).dedup = l.map (fun e => e.image_path) :=
        (List.dedup_sublist _).eq_of_length hlen
      rw [← heq]
      exact List.nodup_dedup _
    · intro h
      simp [unique_images, total_entries, List.dedup_eq_self.mpr h]

/-! ## C5: write discipline of `prepare_dataset` -/

/-- C5 counterexample: with balancing and augmentation off, a record whose
metadata lacks the required `age_range` key passes formatting, the
formatted-records file is written, and only then does the statistics loop
raise `KeyError("age_range")` — so the run fails with the formatted file
written but no statistics file, contradicting "either both output artifacts
are written or neither is". -/
theorem prepare_partial_write_cex :
    (prepare_dataset sTake id [Line.record rec_noage] false false none).error =
      some (Err.keyError "age_range") ∧
    (prepare_dataset sTake id [Line.record rec_noage] false false none).formatted_file =
      some [format_for_training rec_noage] ∧
    (prepare_dataset sTake id [Line.record rec_noage] false false none).stats_file = none :=
  ⟨rfl, rfl, rfl⟩

/-- C5 amended: on a successful run both artifacts are written; on any
fatal error the statistics file is never written, but the formatted-records
file may already have been written — a missing required metadata field that
is first read by the statistics loop (such as `age_range`) aborts the run
after the formatted file was persisted (see the counterexample). -/
theorem prepare_dataset_write_discipline
    (sampler : List RawRecord → Nat → List RawRecord)
    (shuffle : List FormattedRecord → List FormattedRecord)
    (lines : List Line) (augment balance : Bool) (cap : Option Int) :
    ((prepare_dataset sampler shuffle lines augment balance cap).error = none →
      (prepare_dataset sampler shuffle lines augment balance cap).formatted_file.isSome = true ∧
      (prepare_dataset sampler shuffle lines augment balance cap).stats_file.isSome = true) ∧
    ((prepare_dataset sampler shuffle lines augment balance cap).error ≠ none →
      (prepare_dataset sampler shuffle lines augment balance cap).stats_file = none) := by
  unfold prepare_dataset
  split
  · simp
  · split
    · simp
    · split
      · simp
      · dsimp only
        split
        · simp
        · simp

/-- Witness for C5 (amended) at a concrete successful run: no error, both
files written. -/
theorem prepare_dataset_write_discipline_witness :
    (prepare_dataset sTake id [Line.record rec_polyp1] false false none).error = none ∧
    ((prepare_dataset sTake id [Line.record rec_polyp1] false false none).formatted_file.isSome = true ∧
     (prepare_dataset sTake id [Line.record rec_polyp1] false false none).stats_file.isSome = true) :=
  ⟨rfl, (prepare_dataset_write_discipline sTake id [Line.record rec_polyp1] false false none).1 rfl⟩

/-! ## Lemmas about the category grouping of `balance_dataset` -/

theorem keysOf_cons (a : String) (b : List RawRecord)
    (rest : List (String × List RawRecord)) :
    keysOf ((a, b) :: rest) = a :: keysOf rest := rfl

theorem addToGroups_cons_pos (c : String) (l : List RawRecord)
    (rest : List (String × List RawRecord)) (r : RawRecord) :
    addToGroups ((c, l) :: rest) c r = (c, l ++ [r]) :: rest := by
  rw [addToGroups, if_pos rfl]

theorem addToGroups_cons_neg (c' c : String) (l : List RawRecord)
    (rest : List (String × List RawRecord)) (r : RawRecord) (h : c' ≠ c) :
    addToGroups ((c', l) :: rest) c r = (c', l) :: addToGroups rest c r := by
  rw [addToGroups, if_neg h]

theorem entriesFor_cons_pos (c : String) (l : List RawRecord)
    (rest : List (String × List RawRecord)) :
    entriesFor ((c, l) :: rest) c = l ++ entriesFor rest c := by
  rw [entriesFor, if_pos rfl]

theorem entriesFor_cons_neg (c' : String) (l : List RawRecord)
    (rest : List (String × List RawRecord)) (c : String) (h : c' ≠ c) :
    entriesFor ((c', l) :: rest) c = entriesFor rest c := by
  rw [entriesFor, if_neg h]

theorem entriesFor_eq_nil (gs : List (String × List RawRecord)) (c : String)
    (h : c ∉ keysOf gs) : entriesFor gs c = [] := by
  induction gs with
  | nil => rfl
  | cons p rest ih =>
    obtain ⟨c', l⟩ := p
    rw [keysOf_cons, List.mem_cons, not_or] at h
    rw [entriesFor_cons_neg c' l rest c (fun hh => h.1 hh.symm)]
    exact ih h.2

theorem mem_keysOf_addToGroups (gs : List (String × List RawRecord)) (c : String)
    (r : RawRecord) (x : String) :
    x ∈ keysOf (addToGroups gs c r) ↔ x ∈ keysOf gs ∨ x = c := by
  induction gs with
  | nil => simp [addToGroups, keysOf]
  | cons p rest ih =>
    obtain ⟨c', l⟩ := p
    by_cases hc : c' = c
    · subst hc
      rw [addToGroups_cons_pos, keysOf_cons, keysOf_cons]
      simp only [List.mem_cons]
      tauto
    · rw [addToGroups_cons_neg c' c l rest r hc, keysOf_cons, keysOf_cons]
      simp only [List.mem_cons, ih]
      tauto

theorem keysOf_nodup_addToGroups (gs : List (String × List RawRecord)) (c : String)
    (r : RawRecord) (h : (keysOf gs).Nodup) :
    (keysOf (addToGroups gs c r)).Nodup := by
  induction gs with
  | nil => simp [addToGroups, keysOf]
  | cons p rest ih =>
    obtain ⟨c', l⟩ := p
    rw [keysOf_cons, List.nodup_cons] at h
    by_cases hc : c' = c
    · subst hc
      rw [addToGroups_cons_pos, keysOf_cons, List.nodup_cons]
      exact ⟨h.1, h.2⟩
    · rw [addToGroups_cons_neg c' c l rest r hc, keysOf_cons, List.nodup_cons]
      refine ⟨?_, ih h.2⟩
      intro hmem
      rcases (mem_keysOf_addToGroups rest c r c').mp hmem with hx | hx
      · exact h.1 hx
      · exact hc hx

theorem entriesFor_addToGroups (gs : List (String × List RawRecord)) (c : String)
    (r : RawRecord) (x : String) (h : (keysOf gs).Nodup) :
    entriesFor (addToGroups gs c r) x =
      entriesFor gs x ++ (if c = x then [r] else []) := by
  induction gs with
  | nil =>
    by_cases hcx : c = x <;> simp [addToGroups, entriesFor, hcx]
  | cons p rest ih =>
    obtain ⟨c', l⟩ := p
    rw [keysOf_cons, List.nodup_cons] at h
    by_cases hc : c' = c
    · subst hc
      rw [addToGroups_cons_pos]
      by_cases hx : c' = x
      · subst hx
        rw [entriesFor_cons_pos, entriesFor_cons_pos, entriesFor_eq_nil rest c' h.1,
          if_pos rfl]
        simp
      · rw [entriesFor_cons_neg _ _ _ _ hx, entriesFor_cons_neg _ _ _ _ hx, if_neg hx]
        simp
    · rw [addToGroups_cons_neg c' c l rest r hc]
      by_cases hx : c' = x
      · subst hx
        rw [entriesFor_cons_pos, entriesFor_cons_pos, ih h.2]
        simp [List.append_assoc]
      · rw [entriesFor_cons_neg _ _ _ _ hx, entriesFor_cons_neg _ _ _ _ hx, ih h.2]

theorem addToGroups_ne_nil (gs : List (String × List RawRecord)) (c : String)
    (r : RawRecord) : addToGroups gs c r ≠ [] := by
  cases gs with
  | nil => simp [addToGroups]
  | cons p rest =>
    obtain ⟨c', l⟩ := p
    by_cases hc : c' = c
    · subst hc
      rw [addToGroups_cons_pos]
      simp
    · rw [addToGroups_cons_neg c' c l rest r hc]
      simp

theorem addToGroups_snd_ne_nil (gs : List (String × List RawRecord)) (c : String)
    (r : RawRecord) (h : ∀ p ∈ gs, p.2 ≠ []) :
    ∀ p ∈ addToGroups gs c r, p.2 ≠ [] := by
  induction gs with
  | nil =>
    intro p hp
    simp only [addToGroups, List.mem_singleton] at hp
    rw [hp]
    simp
  | cons q rest ih =>
    obtain ⟨c', l⟩ := q
    intro p hp
    by_cases hc : c' = c
    · subst hc
      rw [addToGroups_cons_pos] at hp
      rcases List.mem_cons.mp hp with rfl | hp'
      · simp
      · exact h p (List.mem_cons_of_mem _ hp')
    · rw [addToGroups_cons_neg c' c l rest r hc] at hp
      rcases List.mem_cons.mp hp with rfl | hp'
      · exact h _ (List.mem_cons_self _ _)
      · exact ih (fun q hq => h q (List.mem_cons_of_mem _ hq)) p hp'

theorem groupByCategory_ne_nil (data : List RawRecord) :
    ∀ gs gs2, groupByCategory gs data = .ok gs2 → (gs ≠ [] ∨ data ≠ []) → gs2 ≠ [] := by
  induction data with
  | nil =>
    intro gs gs2 h hne
    rw [groupByCategory] at h
    cases h
    rcases hne with h | h
    · exact h
    · exact absurd rfl h
  | cons r rest ih =>
    intro gs gs2 h hne
    rw [groupByCategory] at h
    cases hc : r.metadata.category with
    | none => rw [hc] at h; cases h
    | some c =>
      rw [hc] at h
      exact ih (addToGroups gs c r) gs2 h (Or.inl (addToGroups_ne_nil gs c r))

theorem groupByCategory_snd_ne_nil (data : List RawRecord) :
    ∀ gs gs2, groupByCategory gs data = .ok gs2 → (∀ p ∈ gs, p.2 ≠ []) →
      ∀ p ∈ gs2, p.2 ≠ [] := by
  induction data with
  | nil =>
    intro gs gs2 h hne
    rw [groupByCategory] at h
    cases h
    exact hne
  | cons r rest ih =>
    intro gs gs2 h hne
    rw [groupByCategory] at h
    cases hc : r.metadata.category with
    | none => rw [hc] at h; cases h
    | some c =>
      rw [hc] at h
      exact ih _ gs2 h (addToGroups_snd_ne_nil gs c r hne)

/-- Correctness of the grouping loop: it succeeds when every record carries
its category, preserves key uniqueness, and the records stored under key `x`
are exactly the input records of category `x`, in order. -/
theorem groupByCategory_spec (data : List RawRecord) :
    ∀ gs : List (String × List RawRecord), (keysOf gs).Nodup →
      (∀ e ∈ data, (e.metadata.category).isSome = true) →
      ∃ gs2, groupByCategory gs data = .ok gs2 ∧ (keysOf gs2).Nodup ∧
        ∀ x, entriesFor gs2 x = entriesFor gs x ++ data.filter (catOfB x) := by
  induction data with
  | nil =>
    intro gs hnd _
    exact ⟨gs, rfl, hnd, fun x => by simp⟩
  | cons r rest ih =>
    intro gs hnd hpres
    obtain ⟨c, hc⟩ := Option.isSome_iff_exists.mp (hpres r (List.mem_cons_self r rest))
    obtain ⟨gs2, hgs2, hnd2, hent⟩ := ih (addToGroups gs c r)
      (keysOf_nodup_addToGroups gs c r hnd)
      (fun e he => hpres e (List.mem_cons_of_mem r he))
    refine ⟨gs2, ?_, hnd2, ?_⟩
    · rw [groupByCategory, hc]
      exact hgs2
    · intro x
      rw [hent x, entriesFor_addToGroups gs c r x hnd, List.filter_cons]
      by_cases hcx : c = x
      · subst hcx
        simp [catOfB, hc, List.append_assoc]
      · have hcx2 : ¬(r.metadata.category = some x) := by
          rw [hc]
          simp [hcx]
        simp [catOfB, hcx, hcx2]

theorem entriesFor_of_mem (gs : List (String × List RawRecord))
    (h : (keysOf gs).Nodup) : ∀ p ∈ gs, entriesFor gs p.1 = p.2 := by
  induction gs with
  | nil =>
    intro p hp
    cases hp
  | cons q rest ih =>
    obtain ⟨ck, lk⟩ := q
    rw [keysOf_cons, List.nodup_cons] at h
    intro p hp
    rcases List.mem_cons.mp hp with rfl | hp'
    · rw [entriesFor_cons_pos, entriesFor_eq_nil rest ck h.1]
      simp
    · have hne : ck ≠ p.1 := by
        intro hh
        apply h.1
        rw [hh]
        exact List.mem_map_of_mem Prod.fst hp'
      rw [entriesFor_cons_neg ck lk rest p.1 hne]
      exact ih h.2 p hp'

/-- Correctness of the per-category balancing loop, for a non-negative cap:
it succeeds, and the output records of category `x` are the group of `x`
itself when it is within the cap, and the sampler selection from it
otherwise. -/
theorem balanceGroups_spec (sampler : List RawRecord → Nat → List RawRecord)
    (k : Int) (hk : 0 ≤ k)
    (hs : ∀ l n, n ≤ l.length → (sampler l n).length = n ∧ List.Subperm (sampler l n) l) :
    ∀ gs : List (String × List RawRecord), (keysOf gs).Nodup →
      (∀ p ∈ gs, ∀ e ∈ p.2, e.metadata.category = some p.1) →
      ∃ kept, balanceGroups sampler k gs = .ok kept ∧
        ∀ x, kept.flatten.filter (catOfB x) =
          (if ((entriesFor gs x).length : Int) > k then
            sampler (entriesFor gs x) k.toNat
           else entriesFor gs x) := by
  intro gs
  induction gs with
  | nil =>
    intro _ _
    refine ⟨[], rfl, fun x => ?_⟩
    rw [if_neg (by simp [entriesFor]; omega)]
    simp [entriesFor]
  | cons q rest ih =>
    intro hnd hcats
    obtain ⟨key, entries⟩ := q
    rw [keysOf_cons, List.nodup_cons] at hnd
    obtain ⟨kept2, hkept2, hfil2⟩ := ih hnd.2 (fun p hp => hcats p (List.mem_cons_of_mem _ hp))
    have hcat_entries : ∀ e ∈ entries, e.metadata.category = some key :=
      fun e he => hcats (key, entries) (List.mem_cons_self _ _) e he
    have hrest_nil : entriesFor rest key = [] :=
      entriesFor_eq_nil rest key hnd.1
    by_cases hlen : ((entries.length : Int) > k)
    · have hkn : k.toNat ≤ entries.length := by omega
      obtain ⟨hslen, hsub⟩ := hs entries k.toNat hkn
      refine ⟨sampler entries k.toNat :: kept2, ?_, ?_⟩
      · rw [balanceGroups, if_pos hlen, randomSample, if_pos ⟨hk, by omega⟩, hkept2]
      · intro x
        rw [List.flatten_cons, List.filter_append, hfil2 x]
        by_cases hx : key = x
        · subst hx
          rw [entriesFor_cons_pos, hrest_nil, List.append_nil,
            if_neg (show ¬((([] : List RawRecord).length : Int) > k) by simp; omega),
            if_pos hlen, List.append_nil,
            List.filter_eq_self.mpr
              (fun e he => by simp [catOfB, hcat_entries e (hsub.subset he)])]
        · rw [entriesFor_cons_neg key entries rest x hx,
            List.filter_eq_nil_iff.mpr
              (fun e he => by simp [catOfB, hcat_entries e (hsub.subset he), hx]),
            List.nil_append]
    · refine ⟨entries :: kept2, ?_, ?_⟩
      · rw [balanceGroups, if_neg hlen, hkept2]
      · intro x
        rw [List.flatten_cons, List.filter_append, hfil2 x]
        by_cases hx : key = x
        · subst hx
          rw [entriesFor_cons_pos, hrest_nil, List.append_nil,
            if_neg (show ¬((([] : List RawRecord).length : Int) > k) by simp; omega),
            if_neg hlen, List.append_nil,
            List.filter_eq_self.mpr (fun e he => by simp [catOfB, hcat_entries e he])]
        · rw [entriesFor_cons_neg key entries rest x hx,
            List.filter_eq_nil_iff.mpr
              (fun e he => by simp [catOfB, hcat_entries e he, hx]),
            List.nil_append]

/-! ## C2: the category balancer -/

/-- C2: with a sampler that draws the requested number of records without
replacement (the abstraction of `random.sample`; uniformity is a property
of the random source, not representable here), a cap in the domain the spec
allows (a positive integer, or unbounded = `None`), and every record
carrying its category: an unbounded cap returns the input unchanged, and a
positive cap keeps each within-cap category whole (same records, same
order) while each over-cap category is reduced to exactly `k` records drawn
without replacement from that category. -/
theorem balance_dataset_spec (sampler : List RawRecord → Nat → List RawRecord)
    (data : List RawRecord) (k : Int)
    (hs : ∀ l n, n ≤ l.length → (sampler l n).length = n ∧ List.Subperm (sampler l n) l)
    (hpres : ∀ e ∈ data, (e.metadata.category).isSome = true)
    (hk : 0 < k) :
    balance_dataset sampler data none = .ok data ∧
    ∃ out, balance_dataset sampler data (some k) = .ok out ∧
      ∀ c : String,
        (((data.filter (catOfB c)).length : Int) ≤ k →
            out.filter (catOfB c) = data.filter (catOfB c)) ∧
        (k < ((data.filter (catOfB c)).length : Int) →
            (out.filter (catOfB c)).length = k.toNat ∧
            List.Subperm (out.filter (catOfB c)) (data.filter (catOfB c))) := by
  obtain ⟨gs2, hgs2, hnd2, hent2⟩ := groupByCategory_spec data [] (by simp [keysOf]) hpres
  have hent : ∀ x, entriesFor gs2 x = data.filter (catOfB x) := fun x => by
    rw [hent2 x]
    simp [entriesFor]
  constructor
  · simp only [balance_dataset, hgs2]
  · have hcats : ∀ p ∈ gs2, ∀ e ∈ p.2, e.metadata.category = some p.1 := by
      intro p hp e he
      have h1 := entriesFor_of_mem gs2 hnd2 p hp
      rw [hent p.1] at h1
      rw [← h1] at he
      have h2 := List.mem_filter.mp he
      simpa [catOfB] using h2.2
    obtain ⟨kept, hkept, hfil⟩ := balanceGroups_spec sampler k (le_of_lt hk) hs gs2 hnd2 hcats
    refine ⟨kept.flatten, ?_, ?_⟩
    · simp only [balance_dataset, hgs2]
      rw [if_pos (show k ≠ 0 by omega), hkept]
    · intro c
      have hf := hfil c
      rw [hent c] at hf
      constructor
      · intro hle
        rw [hf, if_neg (by omega)]
      · intro hlt
        rw [hf, if_pos (by omega)]
        exact hs (data.filter (catOfB c)) k.toNat (by omega)

/-- Witness for C2: on two "polyp" records and one "normal" record with cap
1, the balanced output has exactly one "polyp" record and keeps the
"normal" category whole; the unbounded cap is the identity. -/
theorem balance_dataset_spec_witness :
    balance_dataset sTake data_bal none = .ok data_bal ∧
    Except.map (fun out => ((out.filter (catOfB "polyp")).length, out.filter (catOfB "normal")))
        (balance_dataset sTake data_bal (some 1)) = .ok (1, [rec_normal]) := by
  have hsamp : ∀ (l : List RawRecord) n, n ≤ l.length →
      (sTake l n).length = n ∧ List.Subperm (sTake l n) l := by
    intro l n hn
    refine ⟨?_, (List.take_sublist n l).subperm⟩
    simp [sTake]
    omega
  obtain ⟨h0, out, hout, hc⟩ := balance_dataset_spec sTake data_bal 1 hsamp (by decide) (by decide)
  refine ⟨h0, ?_⟩
  rw [hout]
  have hp := (hc "polyp").2 (by decide)
  have hn := (hc "normal").1 (by decide)
  simp only [Except.map]
  rw [hp.1, hn]
  decide

/-! ## C6: non-positive caps do not raise a sampling error up front -/

/-- C6 counterexample: with balancing enabled and `max_per_category = 0`
(non-positive), the pipeline does not fail with a sampling error — the
Python truthiness test `if max_per_category:` silently treats `0` as "no
cap" and the run succeeds end to end. -/
theorem balance_zero_cap_cex :
    (prepare_dataset sTake id [Line.record rec_polyp1] false true (some 0)).error = none ∧
    (prepare_dataset sTake id [Line.record rec_polyp1] false true (some 0)).stats_file.isSome = true :=
  ⟨rfl, rfl⟩

/-- C6 amended: with balancing enabled, a cap of `0` is treated like `None`
— the input passes through unchanged with no error; a negative cap raises a
sampling error (`ValueError` from `random.sample`) as soon as the input is
non-empty, with no balanced output produced — the error is raised at the
first category group, not by an up-front validation. -/
theorem balance_nonpositive_cap (sampler : List RawRecord → Nat → List RawRecord)
    (data : List RawRecord)
    (hpres : ∀ e ∈ data, (e.metadata.category).isSome = true) :
    balance_dataset sampler data (some 0) = .ok data ∧
    ∀ k : Int, k < 0 → data ≠ [] →
      balance_dataset sampler data (some k) = .error Err.samplingError := by
  obtain ⟨gs2, hgs2, hnd2, hent2⟩ := groupByCategory_spec data [] (by simp [keysOf]) hpres
  constructor
  · simp only [balance_dataset, hgs2]
    simp
  · intro k hk hne
    have hgsne : gs2 ≠ [] := groupByCategory_ne_nil data [] gs2 hgs2 (Or.inr hne)
    have hsne : ∀ p ∈ gs2, p.2 ≠ [] :=
      groupByCategory_snd_ne_nil data [] gs2 hgs2 (by intro p hp; cases hp)
    rcases gs2 with _ | ⟨⟨key, entries⟩, rest⟩
    · exact absurd rfl hgsne
    · have hene : entries ≠ [] := hsne (key, entries) (List.mem_cons_self _ _)
      have hlen : 0 < entries.length := List.length_pos.mpr hene
      simp only [balance_dataset, hgs2]
      rw [if_pos (show k ≠ 0 by omega),
        balanceGroups, if_pos (show ((entries.length : Int) > k) by omega),
        randomSample, if_neg (fun hcon => absurd hcon.1 (by omega))]

/-- Witness for C6 (amended) at a concrete one-record dataset: cap `0` is
the identity with no error, cap `-1` raises the sampling error. -/
theorem balance_nonpositive_cap_witness :
    balance_dataset sTake [rec_polyp1] (some 0) = .ok [rec_polyp1] ∧
    balance_dataset sTake [rec_polyp1] (some (-1)) = .error Err.samplingError := by
  obtain ⟨h0, hneg⟩ := balance_nonpositive_cap sTake [rec_polyp1] (by decide)
  exact ⟨h0, hneg (-1) (by decide) (by decide)⟩

/-! ## C3: the end-to-end augmentation scenario -/

/-- C3: on the concrete 4-record input (two eligible "polyp" records whose
prompts are the canonical baseline, one "normal" record, one non-annotated
"ulcer" record), running the pipeline with `balance = false` and
`augment = true` — with the shuffle modelled as any permutation — writes
exactly 8 formatted records, and the statistics report has
`total_entries = 8` and category distribution
polyp ↦ 6, normal ↦ 1, ulcer ↦ 1 (and 0 elsewhere). -/
theorem end_to_end_augment_scenario (sampler : List RawRecord → Nat → List RawRecord)
    (shuffle : List FormattedRecord → List FormattedRecord)
    (hsh : ∀ l, (shuffle l).Perm l) :
    ∃ sh r, prepare_dataset sampler shuffle lines4 true false none =
        ⟨some sh, some r, none⟩ ∧
      sh.length = 8 ∧ r.total_entries = 8 ∧
      r.category_distribution "polyp" = 6 ∧
      r.category_distribution "normal" = 1 ∧
      r.category_distribution "ulcer" = 1 ∧
      ∀ c, c ≠ "polyp" → c ≠ "normal" → c ≠ "ulcer" → r.category_distribution c = 0 := by
  have hperm : (shuffle formatted8).Perm formatted8 := hsh formatted8
  have hred : prepare_dataset sampler shuffle lines4 true false none =
      (match computeStats (shuffle formatted8) with
       | .error e => ⟨some (shuffle formatted8), none, some e⟩
       | .ok stats => ⟨some (shuffle formatted8), some stats, none⟩) := rfl
  have hkeys : ∀ e ∈ formatted8, keysOK e = true := by decide
  have hkeys2 : ∀ e ∈ shuffle formatted8, keysOK e = true :=
    fun e he => hkeys e (hperm.mem_iff.mp he)
  obtain ⟨cnt, hcnt⟩ := (foldStats_ok_iff (shuffle formatted8) _).mpr hkeys2
  obtain ⟨hc1, -, -, -⟩ := foldStats_counts (shuffle formatted8) _ cnt hcnt
  have hstats : computeStats (shuffle formatted8) =
      .ok ⟨total_entries (shuffle formatted8), unique_images (shuffle formatted8),
           cnt.cat, cnt.age, cnt.sex, cnt.proc⟩ := by
    unfold computeStats
    rw [hcnt]
  have hcats8 : ∀ e ∈ formatted8, e.metadata.category = some "polyp" ∨
      e.metadata.category = some "normal" ∨ e.metadata.category = some "ulcer" := by
    decide
  refine ⟨shuffle formatted8,
    ⟨total_entries (shuffle formatted8), unique_images (shuffle formatted8),
     cnt.cat, cnt.age, cnt.sex, cnt.proc⟩, ?_, ?_, ?_, ?_, ?_, ?_, ?_⟩
  · rw [hred, hstats]
  · exact hperm.length_eq.trans (by decide)
  · show total_entries (shuffle formatted8) = 8
    exact hperm.length_eq.trans (by decide)
  · show cnt.cat "polyp" = 6
    rw [hc1 "polyp", List.Perm.countP_eq _ hperm]
    decide
  · show cnt.cat "normal" = 1
    rw [hc1 "normal", List.Perm.countP_eq _ hperm]
    decide
  · show cnt.cat "ulcer" = 1
    rw [hc1 "ulcer", List.Perm.countP_eq _ hperm]
    decide
  · intro c h1 h2 h3
    show cnt.cat c = 0
    rw [hc1 c, List.Perm.countP_eq _ hperm]
    have hzero : List.countP (fun e => decide (e.metadata.category = some c)) formatted8 = 0 := by
      rw [List.countP_eq_zero]
      intro e he
      rcases hcats8 e he with h | h | h
      · simp [h]
        exact fun hh => h1 hh.symm
      · simp [h]
        exact fun hh => h2 hh.symm
      · simp [h]
        exact fun hh => h3 hh.symm
    rw [hzero]

/-- Witness for C3 with the identity permutation as the shuffle and a
concrete sampler: the run succeeds and the formatted file holds the 8
expected records. -/
theorem end_to_end_augment_scenario_witness :
    (prepare_dataset sTake id lines4 true false none).error = none ∧
    (prepare_dataset sTake id lines4 true false none).formatted_file = some formatted8 := by
  refine ⟨?_, rfl⟩
  obtain ⟨sh, r, heq, -⟩ := end_to_end_augment_scenario sTake id (fun l => List.Perm.refl l)
  rw [heq]

end PrepareTrainingData
